import Mathlib

/-!
Shallow embedding of the architecture knowledge extraction core of the
rust-asr repository: pattern detection (analysis/patterns.py),
architecture style detection (analysis/architecture.py), knowledge graph
construction and clustering (analysis/knowledge_graph.py), public API
surface extraction (analysis/api_surface.py) and semantic indexing
(export/semantic_index.py).
-/

namespace RustAsr

/-- Substring test on character lists: true when the needle occurs
contiguously in the haystack.  Models the Python `in` operator on str. -/
def listContains (needle : List Char) : List Char → Bool
  | [] => needle.isEmpty
  | c :: rest => needle.isPrefixOf (c :: rest) || listContains needle rest

/-- Python `needle in hay` for strings. -/
def strContains (hay needle : String) : Bool :=
  listContains needle.data hay.data

/-- Helper for listCount: the Nat argument is the number of positions still
to be skipped because they are covered by the previous match. -/
def listCountAux (needle : List Char) : List Char → Nat → Nat
  | [], _ => 0
  | _ :: rest, Nat.succ k => listCountAux needle rest k
  | c :: rest, 0 =>
    if needle.isPrefixOf (c :: rest) then
      1 + listCountAux needle rest (needle.length - 1)
    else
      listCountAux needle rest 0

/-- Count of non-overlapping occurrences of a (non-empty) needle, scanning
left to right and advancing past each match.  Models Python str.count. -/
def listCount (needle l : List Char) : Nat :=
  listCountAux needle l 0

/-- Python `hay.count(needle)` for strings. -/
def strCount (hay needle : String) : Nat :=
  listCount needle.data hay.data

/-- Python string slice `s[:n]`. -/
def strTake (s : String) (n : Nat) : String :=
  ⟨s.data.take n⟩

/-- Stable insertion step: the inserted element x is placed before the first
element y for which the comparator `later y x` is false; elements y with
`later y x = true` stay before x. -/
def insertStable {α : Type} (later : α → α → Bool) (x : α) : List α → List α
  | [] => [x]
  | y :: rest => if later y x then y :: insertStable later x rest else x :: y :: rest

/-- Stable sort: models Python list.sort / sorted, which are stable.  With
`later y x := key x ≤ key y` this is a stable descending sort by key, as in
detected.sort with a confidence key and reverse order; with
`later y x := key y < key x` it is a stable ascending sort. -/
def sortStable {α : Type} (later : α → α → Bool) (l : List α) : List α :=
  l.foldr (insertStable later) []

/-! ## Pattern detector (analysis/patterns.py, analyze)

A Signature bundles up to four evidence categories; a category missing from
the Python dict behaves exactly like the empty list (dict.get with default).
Keyword, import and trait checks are plain substring tests on the
aggregated source corpus or the manifest; structural patterns go through
re.search, which is a Python library primitive and is therefore abstracted
as the Boolean oracle reSearch of the match environment. -/

structure Signature where
  name : String
  keywords : List String
  imports : List String
  patterns : List String
  traits : List String
deriving DecidableEq

/-- Match environment of analyze: the aggregated production source corpus
(all_code), the manifest text (cargo_content), and the regex search oracle
standing for re.search applied to all_code. -/
structure MatchEnv where
  allCode : String
  cargo : String
  reSearch : String → Bool

/-- Keyword hits: keywords occurring in all_code, in declaration order. -/
def kwHits (env : MatchEnv) (kws : List String) : List String :=
  kws.filter (fun kw => strContains env.allCode kw)

/-- Import hits: an import counts when it occurs in Cargo.toml or when
"use " followed by it occurs in the corpus. -/
def impHits (env : MatchEnv) (imps : List String) : List String :=
  imps.filter (fun imp => strContains env.cargo imp || strContains env.allCode ("use " ++ imp))

/-- Structural pattern hits via the regex oracle. -/
def patHits (env : MatchEnv) (pats : List String) : List String :=
  pats.filter env.reSearch

/-- Trait hits: trait literals occurring in the corpus. -/
def trHits (env : MatchEnv) (trs : List String) : List String :=
  trs.filter (fun t => strContains env.allCode t)

/-- Accumulated score: +1 per keyword hit, +2 per import hit, +1 per
structural pattern hit, +1 per trait hit. -/
def sigScore (env : MatchEnv) (sig : Signature) : Nat :=
  (kwHits env sig.keywords).length + 2 * (impHits env sig.imports).length
    + (patHits env sig.patterns).length + (trHits env sig.traits).length

/-- Maximum possible score: +1 per keyword, +2 per import, +1 per pattern,
+1 per trait.  An absent category contributes zero. -/
def sigMax (sig : Signature) : Nat :=
  sig.keywords.length + 2 * sig.imports.length + sig.patterns.length + sig.traits.length

/-- Evidence strings, in the order the Python loop appends them. -/
def sigEvidence (env : MatchEnv) (sig : Signature) : List String :=
  (kwHits env sig.keywords).map (fun kw => "keyword: " ++ kw)
    ++ (impHits env sig.imports).map (fun imp => "import: " ++ imp)
    ++ (patHits env sig.patterns).map (fun pat => "pattern: " ++ strTake pat 30 ++ "...")
    ++ (trHits env sig.traits).map (fun t => "trait: " ++ t)

/-- Scored result of a Signature or style. -/
structure PDetection where
  name : String
  confidence : ℚ
  evidence : List String
deriving DecidableEq

/-- Detection decision for one Signature: requires max_score > 0 and
score > 0, computes confidence = min(score / max_score, 1.0), and emits
only when confidence is at least the 0.2 threshold. -/
def detectSignature (env : MatchEnv) (sig : Signature) : Option PDetection :=
  if 0 < sigMax sig ∧ 0 < sigScore env sig then
    if (1 : ℚ) / 5 ≤ min ((sigScore env sig : ℚ) / (sigMax sig : ℚ)) 1 then
      some ⟨sig.name, min ((sigScore env sig : ℚ) / (sigMax sig : ℚ)) 1, sigEvidence env sig⟩
    else none
  else none

/-- Confidence of a Signature as a total function: score / max_score,
clamped at 1, and 0 when max_score is 0. -/
def sigConfidence (env : MatchEnv) (sig : Signature) : ℚ :=
  if 0 < sigMax sig then min ((sigScore env sig : ℚ) / (sigMax sig : ℚ)) 1 else 0

/-- Pattern detector over a signature catalog: score every signature,
keep the detections, sort by confidence descending (stable). -/
def analyze (env : MatchEnv) (sigs : List Signature) : List PDetection :=
  sortStable (fun y x => decide (x.confidence ≤ y.confidence))
    (sigs.filterMap (detectSignature env))

/-! ## Architecture style detector (analysis/architecture.py,
detect_architecture_style)

The detector sees the aggregated production source corpus, the manifest
text, and the cargo-metadata workspace information reduced to the two
fields the function reads: is_workspace and package_count.  Indicator
checks are plain substring tests on all_code concatenated with the
manifest; there is no regex here. -/

structure ArchEnv where
  isWorkspace : Bool
  packageCount : Nat
  allCode : String
  cargo : String

structure ArchStyle where
  style : String
  indicators : List String
  description : String
deriving DecidableEq

/-- Architecture style detection result; the Python dict additionally
carries the catalog description. -/
structure SDetection where
  style : String
  confidence : ℚ
  evidence : List String
  description : String
deriving DecidableEq

/-- Description strings of the two fixed-heuristic styles, from the
ARCHITECTURE_STYLES catalog. -/
def mcwDescription : String :=
  "Multiple crates in a workspace, each with specific responsibility"

def mmDescription : String :=
  "Single crate with well-organized internal modules by domain"

/-- Module declaration count as the code computes it:
all_code.count of the text "mod " plus all_code.count of "pub mod ".
Every occurrence of "pub mod " contains "mod " and is counted by both
terms. -/
def moduleCount (allCode : String) : Nat :=
  strCount allCode "mod " + strCount allCode "pub mod "

/-- The fixed workspace-shape heuristics: a workspace with more than 3
packages yields Multi-Crate Workspace at confidence 0.9; a non-workspace
project with moduleCount above 10 yields Modular Monolith at 0.7. -/
def fixedStyleDetections (env : ArchEnv) : List SDetection :=
  if env.isWorkspace ∧ 3 < env.packageCount then
    [⟨"Multi-Crate Workspace", 9 / 10,
      ["Workspace with " ++ toString env.packageCount ++ " packages"], mcwDescription⟩]
  else if !env.isWorkspace then
    if 10 < moduleCount env.allCode then
      [⟨"Modular Monolith", 7 / 10,
        ["Single crate with " ++ toString (moduleCount env.allCode) ++ "+ module declarations"],
        mmDescription⟩]
    else []
  else []

/-- Indicators of a style found in the combined corpus and manifest text,
in declaration order. -/
def styleFound (combined : String) (s : ArchStyle) : List String :=
  s.indicators.filter (fun i => strContains combined i)

/-- Generic scorer for one style: indicators found in the combined text
become the evidence; confidence is the found fraction, threshold 0.3.
The two fixed-heuristic style names are skipped. -/
def detectStyle (combined : String) (s : ArchStyle) : Option SDetection :=
  if s.style = "Modular Monolith" ∨ s.style = "Multi-Crate Workspace" then none
  else if (styleFound combined s).isEmpty then none
  else if (3 : ℚ) / 10 ≤ ((styleFound combined s).length : ℚ) / (s.indicators.length : ℚ) then
    some ⟨s.style, ((styleFound combined s).length : ℚ) / (s.indicators.length : ℚ),
      styleFound combined s, s.description⟩
  else none

/-- Architecture style detector: fixed workspace-shape heuristics first,
then the generic scorer over the remaining catalog entries, sorted by
confidence descending (stable).  The source hardcodes the
ARCHITECTURE_STYLES catalog; the spec treats the catalog as configuration,
so it is a parameter here and archCatalog below is the shipped value. -/
def detect_architecture_style (env : ArchEnv) (styles : List ArchStyle) : List SDetection :=
  sortStable (fun y x => decide (x.confidence ≤ y.confidence))
    (fixedStyleDetections env
      ++ styles.filterMap (detectStyle (env.allCode ++ env.cargo)))

/-- The ARCHITECTURE_STYLES catalog shipped in analysis/architecture.py. -/
def archCatalog : List ArchStyle :=
  [⟨"Modular Monolith", ["single_crate", "many_modules"], mmDescription⟩,
   ⟨"Multi-Crate Workspace", ["workspace", "multiple_crates"], mcwDescription⟩,
   ⟨"Plugin Architecture", ["plugin", "Plugin", "add_plugin", "PluginGroup"],
    "Core system with extensible plugin-based functionality"⟩,
   ⟨"Hexagonal/Ports-Adapters", ["port", "adapter", "domain", "infrastructure", "Storage", "Backend"],
    "Domain logic separated from infrastructure through traits (pluggable storage)"⟩,
   ⟨"Event-Driven", ["Event", "EventReader", "EventWriter", "on_event", "emit"],
    "Components communicate through events and messages"⟩,
   ⟨"Actor Model", ["actix", "xactor", "ractor", "Addr<", "Handler<"],
    "Concurrent computation using actors with message mailboxes"⟩,
   ⟨"Reactor/Proactor", ["Future", "Poll::", "Waker", "async fn", ".await", "executor"],
    "Async I/O with event loop (Tokio, async-std style)"⟩,
   ⟨"Work-Stealing Scheduler", ["work_steal", "multi_thread", "Runtime::new", "tokio::runtime"],
    "Load-balanced task scheduling across worker threads"⟩,
   ⟨"ECS (Entity-Component-System)", ["bevy_ecs", "specs", "legion", "hecs", "World", "Query<"],
    "Data-oriented design with entities, components, and systems"⟩]

/-! ## Knowledge graph (analysis/knowledge_graph.py)

Entity extraction applies five visibility-aware lexical patterns via
re.finditer.  The regex engine is a Python library primitive, so a finder
oracle stands for it: given a pattern kind and the file content it returns
the matches, each with the captured identifier and the match start offset.
Everything after the matching step - the noisy-identifier exclusion list,
the visibility window, the record construction, the per-file loop with the
first-seen dedup by name - is translated from the source. -/

structure Entity where
  id : String
  name : String
  type : String
  module : String
  visibility : String
deriving DecidableEq

/-- One re.finditer match: the captured identifier and the match start. -/
structure MatchRes where
  name : String
  start : Nat
deriving DecidableEq

/-- The five pattern kinds of _extract_entities, in dict order. -/
def kgEntityKinds : List String := ["struct", "enum", "trait", "impl", "fn"]

/-- The noisy identifiers _extract_entities skips. -/
def kgSkip : List String := ["self", "Self", "new", "default", "from", "into"]

/-- The 20-character window content[max(0, start-10) : start+10] that the
visibility test inspects. -/
def visWindow (content : String) (start : Nat) : String :=
  ⟨(content.data.take (start + 10)).drop (start - 10)⟩

/-- Translation of _extract_entities: for each pattern kind in order, for
each match in order, skip the noisy identifiers, then record the entity
with visibility decided by whether "pub " occurs in the window around the
match start. -/
def extract_entities (find : String → String → List MatchRes)
    (content path : String) : List Entity :=
  (kgEntityKinds.map (fun kind =>
    (find kind content).filterMap (fun m =>
      if m.name ∈ kgSkip then none
      else some
        { id := m.name, name := m.name, type := kind, module := path,
          visibility :=
            if strContains (visWindow content m.start) "pub " then "pub" else "private" }))).flatten

structure Edge where
  efrom : String
  eto : String
  relationship : String
  source : String
deriving DecidableEq

structure Cluster where
  name : String
  nodes : List String
deriving DecidableEq

/-- Splitting a character list at every slash, Python str.split("/"). -/
def splitSlash : List Char → List (List Char)
  | [] => [[]]
  | c :: rest =>
    let r := splitSlash rest
    if c = '/' then [] :: r
    else
      match r with
      | [] => [[c]]
      | h :: t => (c :: h) :: t

/-- Path segments of a module path. -/
def pathParts (module : String) : List String :=
  (splitSlash module.data).map (fun l => ⟨l⟩)

/-- Layer label of a module path, translated from the if/elif chain of
_identify_clusters.  The fallback uses the second-to-last path segment
when the last segment ends in ".rs" and the last segment otherwise. -/
def layerOf (module : String) : String :=
  if strContains module "domain" || strContains module "entity" || strContains module "model" then
    "Domain Layer"
  else if strContains module "service" || strContains module "application" || strContains module "handler" then
    "Application Layer"
  else if strContains module "repo" || strContains module "db" || strContains module "storage" then
    "Infrastructure Layer"
  else if strContains module "api" || strContains module "http" || strContains module "web" then
    "Interface Layer"
  else if strContains module "util" || strContains module "common" || strContains module "helper" then
    "Utilities"
  else
    let parts := pathParts module
    if 1 < parts.length then
      "Module: " ++
        (if (".rs".data).isSuffixOf (parts.getLastD "").data then
          (parts.dropLast).getLastD ""
        else
          parts.getLastD "")
    else "Core"

/-- Appending an id under a layer key in an insertion-ordered association
list, as assignment into a Python dict of lists. -/
def addToLayer (layer id : String) : List (String × List String) → List (String × List String)
  | [] => [(layer, [id])]
  | (k, ids) :: rest =>
    if k = layer then (k, ids ++ [id]) :: rest
    else (k, ids) :: addToLayer layer id rest

/-- Ascending-by-string stable insertion sort, modelling Python sorted. -/
def sortStrAsc (l : List String) : List String :=
  sortStable (fun y x => decide (y < x)) l

/-- Python sorted(set(ids)): duplicates removed, then sorted ascending. -/
def sortedDedup (ids : List String) : List String :=
  sortStrAsc ids.dedup

/-- Translation of _identify_clusters: group node ids by layer label in
first-seen order, then emit clusters sorted by name with sorted,
deduplicated id lists. -/
def identifyClusters (nodes : List Entity) : List Cluster :=
  let m := nodes.foldl (fun acc n => addToLayer (layerOf n.module) n.id acc) []
  (sortStable (fun y x => decide (y.1 < x.1)) m).map
    (fun p => ⟨p.1, sortedDedup p.2⟩)

structure KGStats where
  total_nodes : Nat
  total_edges : Nat
  total_clusters : Nat
deriving DecidableEq

structure KGraph where
  project : String
  nodes : List Entity
  edges : List Edge
  clusters : List Cluster
  stats : KGStats

/-- Accumulator state of the per-file loop of build_knowledge_graph:
the node list, the entity map keyed by bare name, and the edge list. -/
structure KGState where
  nodes : List Entity
  emap : List (String × Entity)
  edges : List Edge

/-- Entity step: a freshly extracted entity is added to the map and the
node list only when its bare name is not yet a key of the map; otherwise
it is dropped entirely. -/
def kgEntityStep (s : KGState) (e : Entity) : KGState :=
  if e.name ∈ s.emap.map (fun p => p.1) then s
  else { s with nodes := s.nodes ++ [e], emap := s.emap ++ [(e.name, e)] }

/-- File step: extract the entities of the file, fold them through the
dedup, then extract the relationships of the file against the updated
entity map.  The relationship scan of _extract_relationships is regex
driven, so it appears as the oracle relOf. -/
def kgFileStep (find : String → String → List MatchRes)
    (relOf : String → String → List (String × Entity) → List Edge)
    (s : KGState) (file : String × String) : KGState :=
  let s1 := (extract_entities find file.2 file.1).foldl kgEntityStep s
  { s1 with edges := s1.edges ++ relOf file.2 file.1 s1.emap }

/-- Translation of build_knowledge_graph over an explicit list of
(relative path, content) files in iteration order. -/
def build_knowledge_graph (find : String → String → List MatchRes)
    (relOf : String → String → List (String × Entity) → List Edge)
    (projName : String) (files : List (String × String)) : KGraph :=
  let st := files.foldl (kgFileStep find relOf) ⟨[], [], []⟩
  let clusters := identifyClusters st.nodes
  ⟨projName, st.nodes, st.edges, clusters,
    ⟨st.nodes.length, st.edges.length, clusters.length⟩⟩

/-! ## Public API surface (analysis/api_surface.py, _extract_pub_items)

The eight patterns all require a captured visibility group; the regex
engine is abstracted as a finder oracle returning, per pattern kind, the
matches with the raw visibility text, the captured identifier and the
match start.  Visibility canonicalisation (_parse_visibility) and the doc
comment attachment (_extract_docstrings) are regex driven as well and only
rewrite the visibility and doc fields, never the name, so they appear as
oracles too. -/

structure ApiItem where
  name : String
  type : String
  visibility : String
  visibility_raw : String
  file : String
  line : Nat
  doc : Option String
deriving DecidableEq

/-- One api_surface match: the raw visibility group (stripped), the
captured identifier and the match start. -/
structure PubMatch where
  vis : String
  name : String
  start : Nat
deriving DecidableEq

/-- The eight pattern kinds of _extract_pub_items, in dict order. -/
def apiEntityKinds : List String :=
  ["struct", "enum", "trait", "fn", "mod", "type", "const", "static"]

/-- The identifiers _extract_pub_items skips. -/
def apiSkip : List String := ["self", "Self", "crate", "super"]

/-- Translation of _extract_pub_items: for each pattern kind in order, for
each match in order, skip the excluded identifiers, canonicalise the
visibility through the parseVis oracle, compute the 1-based line number,
then attach doc comments through the docOf oracle (which never changes
any other field). -/
def extract_pub_items (find : String → String → List PubMatch)
    (parseVis : String → String) (docOf : ApiItem → Option String)
    (content path : String) : List ApiItem :=
  ((apiEntityKinds.map (fun kind =>
    (find kind content).filterMap (fun m =>
      if m.name ∈ apiSkip then none
      else some
        ({ name := m.name, type := kind, visibility := parseVis m.vis,
           visibility_raw := m.vis, file := path,
           line := (content.data.take m.start).count '\n' + 1,
           doc := none } : ApiItem)))).flatten).map
    (fun it : ApiItem => { it with doc := docOf it })

/-! ## Semantic index (export/semantic_index.py, build_semantic_index)

The index is a pure function of the knowledge graph except for the entry
point file checks, which probe the file system; file existence is
abstracted as a Boolean oracle over the candidate relative paths. -/

structure HotSpot where
  name : String
  degree : Nat
deriving DecidableEq

structure EntryPoint where
  file : String
  type : String
  description : String
deriving DecidableEq

structure ApiRef where
  name : String
  type : String
  module : String
deriving DecidableEq

structure SIStats where
  total_files : Nat
  total_concepts : Nat
  total_public_apis : Nat
deriving DecidableEq

structure SemanticIndex where
  project : String
  file_to_concepts : List (String × List String)
  concept_to_files : List (String × List String)
  hot_spots : List HotSpot
  entry_points : List EntryPoint
  public_apis : List ApiRef
  stats : SIStats

/-- Append a value under a key of an insertion-ordered association list,
unconditionally (file_to_concepts keeps duplicates). -/
def addAssocAppend (k v : String) : List (String × List String) → List (String × List String)
  | [] => [(k, [v])]
  | (k0, vs) :: rest =>
    if k0 = k then (k0, vs ++ [v]) :: rest
    else (k0, vs) :: addAssocAppend k v rest

/-- Append a value under a key only when the value is not yet present
(concept_to_files suppresses duplicate modules). -/
def addAssocMem (k v : String) : List (String × List String) → List (String × List String)
  | [] => [(k, [v])]
  | (k0, vs) :: rest =>
    if k0 = k then (k0, if v ∈ vs then vs else vs ++ [v]) :: rest
    else (k0, vs) :: addAssocMem k v rest

/-- Increment the degree of a node name in the degree map. -/
def bumpDegree (k : String) : List (String × Nat) → List (String × Nat)
  | [] => [(k, 1)]
  | (k0, d) :: rest =>
    if k0 = k then (k0, d + 1) :: rest
    else (k0, d) :: bumpDegree k rest

/-- The four canonical entry file candidates with their labels. -/
def mainFiles : List (String × String) :=
  [("src/main.rs", "Binary entry point"), ("src/lib.rs", "Library entry point"),
   ("lib.rs", "Library entry point"), ("main.rs", "Binary entry point")]

/-- Translation of _detect_entry_points: the existing canonical entry
files each yield one record, then the first fn node literally named main
yields one more. -/
def detect_entry_points (fileEx : String → Bool) (graph : KGraph) : List EntryPoint :=
  (mainFiles.filterMap (fun p =>
    if fileEx p.1 then
      some ⟨p.1, if strContains p.1 "main" then "main" else "lib", p.2⟩
    else none))
    ++ (match graph.nodes.find? (fun n => decide (n.name = "main") && decide (n.type = "fn")) with
        | some n => [⟨n.module, "main_function", "main() function"⟩]
        | none => [])

/-- The public-API subset: nodes with visibility pub and kind fn, struct
or trait. -/
def pubSubset (nodes : List Entity) : List Entity :=
  nodes.filter (fun n =>
    decide (n.visibility = "pub")
      && (decide (n.type = "fn") || decide (n.type = "struct") || decide (n.type = "trait")))

/-- Translation of build_semantic_index.  The emitted public_apis list is
the public-API subset truncated to the first 50 entries; the stats report
the length of the untruncated subset. -/
def build_semantic_index (fileEx : String → Bool) (graph : KGraph) : SemanticIndex :=
  let ftc := graph.nodes.foldl (fun m n => addAssocAppend n.module n.id m) []
  let ctf := graph.nodes.foldl (fun m n => addAssocMem n.id n.module m) []
  let deg := graph.edges.foldl (fun m e => bumpDegree e.eto (bumpDegree e.efrom m)) []
  let hot := (sortStable (fun y x => decide (x.2 ≤ y.2)) deg).take 20
  let pubs := pubSubset graph.nodes
  { project := graph.project,
    file_to_concepts := ftc,
    concept_to_files := ctf,
    hot_spots := hot.map (fun p => ⟨p.1, p.2⟩),
    entry_points := detect_entry_points fileEx graph,
    public_apis := (pubs.take 50).map (fun n => ⟨n.name, n.type, n.module⟩),
    stats := ⟨ftc.length, ctf.length, pubs.length⟩ }

/-- First-occurrence filter by bare entity name, relative to a set of
names already seen: the first entity carrying a given name is kept with
all its fields, every later entity with that name is dropped entirely.
This is the transparent description of the dedup build_knowledge_graph
performs. -/
def keepFirst (seen : List String) : List Entity → List Entity
  | [] => []
  | e :: rest =>
    if e.name ∈ seen then keepFirst seen rest
    else e :: keepFirst (seen ++ [e.name]) rest

/-- The concatenated entity stream of all files in file-iteration order,
each file contributing its extracted entities in pattern order. -/
def entityStream (find : String → String → List MatchRes)
    (files : List (String × String)) : List Entity :=
  (files.map (fun f => extract_entities find f.2 f.1)).flatten

/-- The keys of the entity map of a knowledge-graph build state. -/
def seenIds (s : KGState) : List String :=
  s.emap.map (fun p => p.1)

/-! ## Helper lemmas -/

theorem mem_insertStable {α : Type} (later : α → α → Bool) (x a : α) :
    ∀ l : List α, a ∈ insertStable later x l ↔ a = x ∨ a ∈ l := by
  intro l
  induction l with
  | nil => simp [insertStable]
  | cons y rest ih =>
    by_cases h : later y x = true
    · simp [insertStable, h, ih]
      try tauto
    · simp [insertStable, h]
      try tauto

theorem mem_sortStable {α : Type} (later : α → α → Bool) (a : α) :
    ∀ l : List α, a ∈ sortStable later l ↔ a ∈ l := by
  intro l
  induction l with
  | nil => simp [sortStable]
  | cons y rest ih =>
    simp only [sortStable, List.foldr] at *
    rw [mem_insertStable, ih, List.mem_cons]

theorem perm_insertStable {α : Type} (later : α → α → Bool) (x : α) :
    ∀ l : List α, List.Perm (insertStable later x l) (x :: l) := by
  intro l
  induction l with
  | nil => simp [insertStable]
  | cons y rest ih =>
    by_cases h : later y x = true
    · simp only [insertStable, h, if_pos]
      exact (ih.cons y).trans (List.Perm.swap x y rest)
    · simp [insertStable, h]

theorem perm_sortStable {α : Type} (later : α → α → Bool) :
    ∀ l : List α, List.Perm (sortStable later l) l := by
  intro l
  induction l with
  | nil => simp [sortStable]
  | cons y rest ih =>
    simp only [sortStable, List.foldr] at *
    exact (perm_insertStable later y _).trans (ih.cons y)

theorem mem_analyze_of_detect (env : MatchEnv) {sigs : List Signature} {sig : Signature}
    {d : PDetection} (hs : sig ∈ sigs) (h : detectSignature env sig = some d) :
    d ∈ analyze env sigs := by
  rw [analyze, mem_sortStable]
  exact List.mem_filterMap.mpr ⟨sig, hs, h⟩

theorem mem_detect_arch_of_fixed (env : ArchEnv) (styles : List ArchStyle)
    {d : SDetection} (h : d ∈ fixedStyleDetections env) :
    d ∈ detect_architecture_style env styles := by
  rw [detect_architecture_style, mem_sortStable]
  exact List.mem_append.mpr (Or.inl h)

theorem builder_detect_eval :
    detectSignature ⟨"Builder build()", "", fun _ => false⟩
      ⟨"Builder", ["Builder", "build()", "with_"], [], [], []⟩ =
      some ⟨"Builder", 2 / 3, ["keyword: Builder", "keyword: build()"]⟩ := by
  have hsc : sigScore ⟨"Builder build()", "", fun _ => false⟩
      ⟨"Builder", ["Builder", "build()", "with_"], [], [], []⟩ = 2 := by decide
  have hmx : sigMax ⟨"Builder", ["Builder", "build()", "with_"], [], [], []⟩ = 3 := by decide
  have hev : sigEvidence ⟨"Builder build()", "", fun _ => false⟩
      ⟨"Builder", ["Builder", "build()", "with_"], [], [], []⟩ =
      ["keyword: Builder", "keyword: build()"] := by decide
  simp only [detectSignature, hsc, hmx, hev]
  norm_num

theorem mcw_fixed_eval :
    (⟨"Multi-Crate Workspace", 9 / 10, ["Workspace with 5 packages"],
      mcwDescription⟩ : SDetection) ∈ fixedStyleDetections ⟨true, 5, "", ""⟩ := by
  simp only [fixedStyleDetections]
  norm_num
  decide

theorem kgEntityFold (es : List Entity) :
    ∀ s : KGState,
      (es.foldl kgEntityStep s).nodes = s.nodes ++ keepFirst (seenIds s) es ∧
      seenIds (es.foldl kgEntityStep s) =
        seenIds s ++ (keepFirst (seenIds s) es).map (fun e => e.name) ∧
      (es.foldl kgEntityStep s).edges = s.edges := by
  induction es with
  | nil => intro s; simp [keepFirst]
  | cons e rest ih =>
    intro s
    by_cases h : e.name ∈ seenIds s
    · have h' : e.name ∈ s.emap.map (fun p => p.1) := h
      have hstep : kgEntityStep s e = s := by
        unfold kgEntityStep
        rw [if_pos h']
      simp only [List.foldl_cons, hstep, keepFirst, if_pos h]
      exact ih s
    · have h' : e.name ∉ s.emap.map (fun p => p.1) := h
      have hstep : kgEntityStep s e =
          ⟨s.nodes ++ [e], s.emap ++ [(e.name, e)], s.edges⟩ := by
        unfold kgEntityStep
        rw [if_neg h']
      have hseen : seenIds (⟨s.nodes ++ [e], s.emap ++ [(e.name, e)], s.edges⟩ : KGState) =
          seenIds s ++ [e.name] := by
        simp [seenIds]
      obtain ⟨ih1, ih2, ih3⟩ := ih (⟨s.nodes ++ [e], s.emap ++ [(e.name, e)], s.edges⟩ : KGState)
      rw [hseen] at ih1 ih2
      simp only [List.foldl_cons, hstep, keepFirst, if_neg h]
      refine ⟨?_, ?_, ih3⟩
      · rw [ih1]
        simp
      · rw [ih2]
        simp

theorem keepFirst_append (a : List Entity) :
    ∀ (seen : List String) (b : List Entity),
      keepFirst seen (a ++ b) =
        keepFirst seen a ++ keepFirst (seen ++ (keepFirst seen a).map (fun e => e.name)) b := by
  induction a with
  | nil => intro seen b; simp [keepFirst]
  | cons e rest ih =>
    intro seen b
    by_cases h : e.name ∈ seen
    · simp only [List.cons_append, keepFirst, if_pos h]
      exact ih seen b
    · simp only [List.cons_append, keepFirst, if_neg h, List.map_cons, List.append_eq]
      rw [ih (seen ++ [e.name]) b]
      simp

theorem kgFileFold (find : String → String → List MatchRes)
    (relOf : String → String → List (String × Entity) → List Edge)
    (files : List (String × String)) :
    ∀ s : KGState,
      (files.foldl (kgFileStep find relOf) s).nodes =
        s.nodes ++ keepFirst (seenIds s) (entityStream find files) ∧
      seenIds (files.foldl (kgFileStep find relOf) s) =
        seenIds s ++ (keepFirst (seenIds s) (entityStream find files)).map (fun e => e.name) := by
  induction files with
  | nil => intro s; simp [entityStream, keepFirst]
  | cons f rest ih =>
    intro s
    obtain ⟨h1, h2, _⟩ := kgEntityFold (extract_entities find f.2 f.1) s
    have hstream : entityStream find (f :: rest) =
        extract_entities find f.2 f.1 ++ entityStream find rest := by
      simp [entityStream]
    have hnodes1 : (kgFileStep find relOf s f).nodes =
        s.nodes ++ keepFirst (seenIds s) (extract_entities find f.2 f.1) := by
      unfold kgFileStep
      simpa using h1
    have hseen1 : seenIds (kgFileStep find relOf s f) =
        seenIds s ++ (keepFirst (seenIds s) (extract_entities find f.2 f.1)).map (fun e => e.name) := by
      unfold kgFileStep
      simpa [seenIds] using h2
    obtain ⟨ih1, ih2⟩ := ih (kgFileStep find relOf s f)
    rw [hnodes1, hseen1] at ih1
    rw [hseen1] at ih2
    simp only [List.foldl_cons]
    constructor
    · rw [hstream, keepFirst_append, ih1]
      simp
    · rw [hstream, keepFirst_append, ih2]
      simp

theorem keepFirst_names (l : List Entity) :
    ∀ seen : List String,
      ((keepFirst seen l).map (fun e => e.name)).Nodup ∧
      ∀ a ∈ (keepFirst seen l).map (fun e => e.name), a ∉ seen := by
  induction l with
  | nil => intro seen; simp [keepFirst]
  | cons e rest ih =>
    intro seen
    by_cases h : e.name ∈ seen
    · simpa [keepFirst, if_pos h] using ih seen
    · simp only [keepFirst, if_neg h, List.map_cons]
      constructor
      · refine List.nodup_cons.mpr ⟨?_, (ih (seen ++ [e.name])).1⟩
        intro hmem
        have hnot := (ih (seen ++ [e.name])).2 _ hmem
        simp at hnot
      · intro a ha
        rcases List.mem_cons.mp ha with rfl | ha'
        · exact h
        · intro hseen
          exact (ih (seen ++ [e.name])).2 _ ha' (List.mem_append.mpr (Or.inl hseen))

theorem keepFirst_subset (l : List Entity) :
    ∀ (seen : List String) (e : Entity), e ∈ keepFirst seen l → e ∈ l := by
  induction l with
  | nil => intro seen e he; simp [keepFirst] at he
  | cons x rest ih =>
    intro seen e he
    by_cases h : x.name ∈ seen
    · rw [keepFirst, if_pos h] at he
      exact List.mem_cons_of_mem x (ih seen e he)
    · rw [keepFirst, if_neg h] at he
      rcases List.mem_cons.mp he with rfl | he'
      · exact List.mem_cons_self _ _
      · exact List.mem_cons_of_mem x (ih (seen ++ [x.name]) e he')

theorem extract_entities_id_eq_name (find : String → String → List MatchRes)
    (content path : String) :
    ∀ e ∈ extract_entities find content path, e.id = e.name := by
  intro e he
  simp only [extract_entities, List.mem_flatten, List.mem_map] at he
  obtain ⟨l, ⟨kind, hkind, rfl⟩, hel⟩ := he
  obtain ⟨m, hm, hsome⟩ := List.mem_filterMap.mp hel
  by_cases hskip : m.name ∈ kgSkip
  · rw [if_pos hskip] at hsome
    exact absurd hsome (by simp)
  · rw [if_neg hskip] at hsome
    simp only [Option.some.injEq] at hsome
    subst hsome
    rfl

theorem entityStream_id_eq_name (find : String → String → List MatchRes)
    (files : List (String × String)) :
    ∀ e ∈ entityStream find files, e.id = e.name := by
  intro e he
  simp only [entityStream, List.mem_flatten, List.mem_map] at he
  obtain ⟨l, ⟨f, hf, rfl⟩, hel⟩ := he
  exact extract_entities_id_eq_name find f.2 f.1 e hel

theorem addToLayer_keys (layer id : String) :
    ∀ acc : List (String × List String),
      (addToLayer layer id acc).map (fun p => p.1) =
        if layer ∈ acc.map (fun p => p.1) then acc.map (fun p => p.1)
        else acc.map (fun p => p.1) ++ [layer] := by
  intro acc
  induction acc with
  | nil => simp [addToLayer]
  | cons p rest ih =>
    obtain ⟨k, ids⟩ := p
    by_cases h : k = layer
    · subst h
      simp [addToLayer]
    · simp only [addToLayer, if_neg h, List.map_cons, ih]
      by_cases h2 : layer ∈ rest.map (fun p => p.1)
      · rw [if_pos h2, if_pos (List.mem_cons_of_mem _ h2)]
      · have hnc : layer ∉ k :: rest.map (fun p => p.1) := by
          intro hc
          rcases List.mem_cons.mp hc with hk | hr
          · exact h hk.symm
          · exact h2 hr
        rw [if_neg h2, if_neg hnc]
        simp

theorem addToLayer_keys_nodup (layer id : String)
    (acc : List (String × List String))
    (h : (acc.map (fun p => p.1)).Nodup) :
    ((addToLayer layer id acc).map (fun p => p.1)).Nodup := by
  rw [addToLayer_keys]
  split
  · exact h
  · rename_i hnm
    simp [List.nodup_append, h, hnm]

theorem clusterFold_keys_nodup (nodes : List Entity) :
    ∀ acc : List (String × List String),
      (acc.map (fun p => p.1)).Nodup →
      ((nodes.foldl (fun acc n => addToLayer (layerOf n.module) n.id acc) acc).map
        (fun p => p.1)).Nodup := by
  induction nodes with
  | nil => intro acc h; simpa
  | cons n rest ih =>
    intro acc h
    simp only [List.foldl_cons]
    exact ih _ (addToLayer_keys_nodup _ _ _ h)

theorem addToLayer_self (layer id : String) :
    ∀ acc : List (String × List String),
      ∃ ids, (layer, ids) ∈ addToLayer layer id acc ∧ id ∈ ids := by
  intro acc
  induction acc with
  | nil => exact ⟨[id], by simp [addToLayer], by simp⟩
  | cons p rest ih =>
    obtain ⟨k, ids0⟩ := p
    by_cases h : k = layer
    · subst h
      refine ⟨ids0 ++ [id], ?_, by simp⟩
      simp [addToLayer]
    · obtain ⟨ids, hm, hid⟩ := ih
      refine ⟨ids, ?_, hid⟩
      simp only [addToLayer, if_neg h]
      exact List.mem_cons_of_mem _ hm

theorem addToLayer_mono (layer id k : String) (ids : List String) :
    ∀ acc : List (String × List String), (k, ids) ∈ acc →
      ∃ ids', (k, ids') ∈ addToLayer layer id acc ∧ ids ⊆ ids' := by
  intro acc
  induction acc with
  | nil => intro h; simp at h
  | cons p rest ih =>
    intro hmem
    obtain ⟨k0, ids0⟩ := p
    by_cases h : k0 = layer
    · subst h
      rcases List.mem_cons.mp hmem with heq | htail
      · simp only [Prod.mk.injEq] at heq
        obtain ⟨rfl, rfl⟩ := heq
        refine ⟨ids ++ [id], ?_, List.subset_append_left _ _⟩
        simp [addToLayer]
      · refine ⟨ids, ?_, List.Subset.refl _⟩
        simp only [addToLayer, if_pos rfl]
        exact List.mem_cons_of_mem _ htail
    · rcases List.mem_cons.mp hmem with heq | htail
      · simp only [Prod.mk.injEq] at heq
        obtain ⟨rfl, rfl⟩ := heq
        refine ⟨ids, ?_, List.Subset.refl _⟩
        simp only [addToLayer, if_neg h]
        exact List.mem_cons_self _ _
      · obtain ⟨ids', hm, hsub⟩ := ih htail
        refine ⟨ids', ?_, hsub⟩
        simp only [addToLayer, if_neg h]
        exact List.mem_cons_of_mem _ hm

theorem clusterFold_mono (nodes : List Entity) :
    ∀ (acc : List (String × List String)) (k : String) (ids : List String),
      (k, ids) ∈ acc →
      ∃ ids', (k, ids') ∈
          nodes.foldl (fun acc n => addToLayer (layerOf n.module) n.id acc) acc ∧
        ids ⊆ ids' := by
  induction nodes with
  | nil => intro acc k ids h; exact ⟨ids, by simpa, List.Subset.refl _⟩
  | cons n rest ih =>
    intro acc k ids h
    obtain ⟨ids1, h1, hsub1⟩ := addToLayer_mono (layerOf n.module) n.id k ids acc h
    obtain ⟨ids2, h2, hsub2⟩ := ih _ k ids1 h1
    exact ⟨ids2, by simpa using h2, hsub1.trans hsub2⟩

theorem clusterFold_mem (nodes : List Entity) :
    ∀ (acc : List (String × List String)) (n : Entity), n ∈ nodes →
      ∃ ids, (layerOf n.module, ids) ∈
          nodes.foldl (fun acc n => addToLayer (layerOf n.module) n.id acc) acc ∧
        n.id ∈ ids := by
  induction nodes with
  | nil => intro acc n h; simp at h
  | cons m rest ih =>
    intro acc n hn
    simp only [List.foldl_cons]
    rcases List.mem_cons.mp hn with rfl | htail
    · obtain ⟨ids, h1, hid⟩ := addToLayer_self (layerOf n.module) n.id acc
      obtain ⟨ids', h2, hsub⟩ := clusterFold_mono rest _ _ _ h1
      exact ⟨ids', h2, hsub hid⟩
    · exact ih _ n htail

theorem mem_sortedDedup (a : String) (l : List String) :
    a ∈ sortedDedup l ↔ a ∈ l := by
  rw [sortedDedup, sortStrAsc, mem_sortStable, List.mem_dedup]

/-! ## Claims -/

/-- Claim C1: for a Signature whose only evidence category is a list of 3
keywords of which the corpus matches exactly 2, the pattern detector emits
a Detection with confidence 2/3; and for every Signature whose computed
confidence is below 0.2, no Detection is emitted. -/
theorem claim1_threshold_and_two_thirds :
    (∀ (env : MatchEnv) (sig : Signature) (sigs : List Signature),
      sig ∈ sigs →
      sig.keywords.length = 3 → (kwHits env sig.keywords).length = 2 →
      sig.imports = [] → sig.patterns = [] → sig.traits = [] →
      ∃ d ∈ analyze env sigs, d.name = sig.name ∧ d.confidence = 2 / 3) ∧
    (∀ (env : MatchEnv) (sig : Signature),
      sigConfidence env sig < 1 / 5 → detectSignature env sig = none) := by
  constructor
  · intro env sig sigs hmem h3 h2 himp hpat htr
    have hsc : sigScore env sig = 2 := by
      simp [sigScore, h2, himp, hpat, htr, impHits, patHits, trHits]
    have hmx : sigMax sig = 3 := by
      simp [sigMax, h3, himp, hpat, htr]
    have hmin : min ((2 : ℚ) / 3) 1 = 2 / 3 := by norm_num
    have hdet : detectSignature env sig =
        some ⟨sig.name, 2 / 3, sigEvidence env sig⟩ := by
      simp only [detectSignature, hsc, hmx]
      norm_num
    refine ⟨⟨sig.name, 2 / 3, sigEvidence env sig⟩, ?_, rfl, rfl⟩
    rw [analyze, mem_sortStable]
    exact List.mem_filterMap.mpr ⟨sig, hmem, hdet⟩
  · intro env sig hlt
    unfold detectSignature
    by_cases h : 0 < sigMax sig ∧ 0 < sigScore env sig
    · rw [if_pos h]
      rw [sigConfidence, if_pos h.1] at hlt
      rw [if_neg (not_le.mpr hlt)]
    · rw [if_neg h]

/-- Witness for C1: a corpus containing Builder and build() but not with_,
against the 3-keyword Builder signature, is detected at confidence 2/3;
a 6-keyword signature matching only one keyword scores 1/6 < 0.2 and is
not detected. -/
theorem claim1_witness :
    (∃ d ∈ analyze ⟨"Builder build()", "", fun _ => false⟩
        [⟨"Builder", ["Builder", "build()", "with_"], [], [], []⟩],
      d.name = "Builder" ∧ d.confidence = 2 / 3) ∧
    detectSignature ⟨"a", "", fun _ => false⟩
      ⟨"S", ["a", "b0", "b1", "b2", "b3", "b4"], [], [], []⟩ = none := by
  constructor
  · exact claim1_threshold_and_two_thirds.1
      ⟨"Builder build()", "", fun _ => false⟩
      ⟨"Builder", ["Builder", "build()", "with_"], [], [], []⟩ _
      (List.mem_singleton.mpr rfl) (by decide) (by decide) rfl rfl rfl
  · exact claim1_threshold_and_two_thirds.2
      ⟨"a", "", fun _ => false⟩
      ⟨"S", ["a", "b0", "b1", "b2", "b3", "b4"], [], [], []⟩
      (by norm_num [sigConfidence, sigMax, sigScore, kwHits, impHits, patHits, trHits, strContains, listContains])

/-- Claim C2: for every corpus, manifest and signature set, every Detection
emitted by the pattern detector and by the architecture-style detector
(generic scorer path and both fixed workspace-shape heuristics) has
confidence in the closed interval from 0 to 1. -/
theorem claim2_confidence_bounds :
    (∀ (env : MatchEnv) (sigs : List Signature) (d : PDetection),
      d ∈ analyze env sigs → 0 ≤ d.confidence ∧ d.confidence ≤ 1) ∧
    (∀ (env : ArchEnv) (styles : List ArchStyle) (d : SDetection),
      d ∈ detect_architecture_style env styles → 0 ≤ d.confidence ∧ d.confidence ≤ 1) := by
  constructor
  · intro env sigs d hd
    rw [analyze, mem_sortStable] at hd
    obtain ⟨sig, _, hdet⟩ := List.mem_filterMap.mp hd
    unfold detectSignature at hdet
    by_cases h1 : 0 < sigMax sig ∧ 0 < sigScore env sig
    · rw [if_pos h1] at hdet
      by_cases h2 : (1 : ℚ) / 5 ≤ min ((sigScore env sig : ℚ) / (sigMax sig : ℚ)) 1
      · rw [if_pos h2] at hdet
        simp only [Option.some.injEq] at hdet
        subst hdet
        refine ⟨le_min (div_nonneg (Nat.cast_nonneg _) (Nat.cast_nonneg _)) zero_le_one, ?_⟩
        exact min_le_right _ _
      · rw [if_neg h2] at hdet
        exact absurd hdet (by simp)
    · rw [if_neg h1] at hdet
      exact absurd hdet (by simp)
  · intro env styles d hd
    rw [detect_architecture_style, mem_sortStable] at hd
    rcases List.mem_append.mp hd with hfix | hgen
    · unfold fixedStyleDetections at hfix
      split at hfix
      · rw [List.mem_singleton] at hfix
        subst hfix
        norm_num
      · split at hfix
        · split at hfix
          · rw [List.mem_singleton] at hfix
            subst hfix
            norm_num
          · exact absurd hfix (List.not_mem_nil d)
        · exact absurd hfix (List.not_mem_nil d)
    · obtain ⟨s, _, hds⟩ := List.mem_filterMap.mp hgen
      unfold detectStyle at hds
      split at hds
      · exact absurd hds (by simp)
      · split at hds
        · exact absurd hds (by simp)
        · rename_i hne
          split at hds
          · simp only [Option.some.injEq] at hds
            subst hds
            have hpos : 0 < (styleFound (env.allCode ++ env.cargo) s).length := by
              cases hh : styleFound (env.allCode ++ env.cargo) s with
              | nil => rw [hh] at hne; simp at hne
              | cons a t => simp
            have hle : (styleFound (env.allCode ++ env.cargo) s).length ≤ s.indicators.length := by
              simp only [styleFound]
              exact List.length_filter_le _ _
            have hipos : (0 : ℚ) < (s.indicators.length : ℚ) := by
              exact_mod_cast lt_of_lt_of_le hpos hle
            refine ⟨div_nonneg (Nat.cast_nonneg _) (Nat.cast_nonneg _), ?_⟩
            rw [div_le_one hipos]
            exact_mod_cast hle
          · exact absurd hds (by simp)

/-- Witness for C2: the Builder detection of the C1 corpus and the fixed
Multi-Crate Workspace detection of a 5-package workspace are both emitted
and both have confidence between 0 and 1. -/
theorem claim2_witness :
    ((⟨"Builder", 2 / 3, ["keyword: Builder", "keyword: build()"]⟩ : PDetection) ∈
        analyze ⟨"Builder build()", "", fun _ => false⟩
          [⟨"Builder", ["Builder", "build()", "with_"], [], [], []⟩] ∧
      0 ≤ ((2 : ℚ) / 3) ∧ ((2 : ℚ) / 3) ≤ 1) ∧
    ((⟨"Multi-Crate Workspace", 9 / 10, ["Workspace with 5 packages"], mcwDescription⟩ : SDetection) ∈
        detect_architecture_style ⟨true, 5, "", ""⟩ [] ∧
      0 ≤ ((9 : ℚ) / 10) ∧ ((9 : ℚ) / 10) ≤ 1) := by
  have hmemP := mem_analyze_of_detect ⟨"Builder build()", "", fun _ => false⟩
    (List.mem_singleton.mpr rfl) builder_detect_eval
  have hmemA := mem_detect_arch_of_fixed ⟨true, 5, "", ""⟩ [] mcw_fixed_eval
  exact ⟨⟨hmemP, claim2_confidence_bounds.1 _ _ _ hmemP⟩,
    ⟨hmemA, claim2_confidence_bounds.2 _ _ _ hmemA⟩⟩

/-- Claim C6: a Signature missing an evidence category contributes zero to
that category's score and max_score, shown for each of the four
categories: with that category empty, the score and max_score reduce to
the sums of the other three categories; a Signature whose every category
is missing or empty has max_score = 0 and never produces a Detection;
detectSignature tests max_score > 0 before any confidence division is
formed, so the division is never evaluated with a zero divisor. -/
theorem claim6_malformed_signature :
    ∀ (env : MatchEnv) (sig : Signature),
      (sig.keywords = [] →
        sigScore env sig = 2 * (impHits env sig.imports).length
          + (patHits env sig.patterns).length + (trHits env sig.traits).length ∧
        sigMax sig = 2 * sig.imports.length + sig.patterns.length + sig.traits.length) ∧
      (sig.imports = [] →
        sigScore env sig = (kwHits env sig.keywords).length
          + (patHits env sig.patterns).length + (trHits env sig.traits).length ∧
        sigMax sig = sig.keywords.length + sig.patterns.length + sig.traits.length) ∧
      (sig.patterns = [] →
        sigScore env sig = (kwHits env sig.keywords).length
          + 2 * (impHits env sig.imports).length + (trHits env sig.traits).length ∧
        sigMax sig = sig.keywords.length + 2 * sig.imports.length + sig.traits.length) ∧
      (sig.traits = [] →
        sigScore env sig = (kwHits env sig.keywords).length
          + 2 * (impHits env sig.imports).length + (patHits env sig.patterns).length ∧
        sigMax sig = sig.keywords.length + 2 * sig.imports.length + sig.patterns.length) ∧
      (sigMax sig = 0 → detectSignature env sig = none) := by
  intro env sig
  refine ⟨?_, ?_, ?_, ?_, ?_⟩
  · intro hk
    constructor
    · simp [sigScore, kwHits, hk]
    · simp [sigMax, hk]
  · intro hi
    constructor
    · simp [sigScore, impHits, hi]
      try omega
    · simp [sigMax, hi]
      try omega
  · intro hp
    constructor
    · simp [sigScore, patHits, hp]
      try omega
    · simp [sigMax, hp]
      try omega
  · intro ht
    constructor
    · simp [sigScore, trHits, ht]
      try omega
    · simp [sigMax, ht]
      try omega
  · intro hm
    simp [detectSignature, hm]

/-- Witness for C6: the all-empty Signature triggers all four
missing-category clauses, has score and max_score zero, and produces no
Detection. -/
theorem claim6_witness :
    (sigScore ⟨"", "", fun _ => false⟩ ⟨"Empty", [], [], [], []⟩ =
        2 * (impHits ⟨"", "", fun _ => false⟩ ([] : List String)).length
          + (patHits ⟨"", "", fun _ => false⟩ ([] : List String)).length
          + (trHits ⟨"", "", fun _ => false⟩ ([] : List String)).length ∧
      sigMax ⟨"Empty", [], [], [], []⟩ =
        2 * ([] : List String).length + ([] : List String).length + ([] : List String).length) ∧
    (sigScore ⟨"", "", fun _ => false⟩ ⟨"Empty", [], [], [], []⟩ =
        (kwHits ⟨"", "", fun _ => false⟩ ([] : List String)).length
          + (patHits ⟨"", "", fun _ => false⟩ ([] : List String)).length
          + (trHits ⟨"", "", fun _ => false⟩ ([] : List String)).length ∧
      sigMax ⟨"Empty", [], [], [], []⟩ =
        ([] : List String).length + ([] : List String).length + ([] : List String).length) ∧
    (sigScore ⟨"", "", fun _ => false⟩ ⟨"Empty", [], [], [], []⟩ =
        (kwHits ⟨"", "", fun _ => false⟩ ([] : List String)).length
          + 2 * (impHits ⟨"", "", fun _ => false⟩ ([] : List String)).length
          + (trHits ⟨"", "", fun _ => false⟩ ([] : List String)).length ∧
      sigMax ⟨"Empty", [], [], [], []⟩ =
        ([] : List String).length + 2 * ([] : List String).length + ([] : List String).length) ∧
    (sigScore ⟨"", "", fun _ => false⟩ ⟨"Empty", [], [], [], []⟩ =
        (kwHits ⟨"", "", fun _ => false⟩ ([] : List String)).length
          + 2 * (impHits ⟨"", "", fun _ => false⟩ ([] : List String)).length
          + (patHits ⟨"", "", fun _ => false⟩ ([] : List String)).length ∧
      sigMax ⟨"Empty", [], [], [], []⟩ =
        ([] : List String).length + 2 * ([] : List String).length + ([] : List String).length) ∧
    detectSignature ⟨"", "", fun _ => false⟩ ⟨"Empty", [], [], [], []⟩ = none :=
  ⟨(claim6_malformed_signature ⟨"", "", fun _ => false⟩ ⟨"Empty", [], [], [], []⟩).1 rfl,
   (claim6_malformed_signature ⟨"", "", fun _ => false⟩ ⟨"Empty", [], [], [], []⟩).2.1 rfl,
   (claim6_malformed_signature ⟨"", "", fun _ => false⟩ ⟨"Empty", [], [], [], []⟩).2.2.1 rfl,
   (claim6_malformed_signature ⟨"", "", fun _ => false⟩ ⟨"Empty", [], [], [], []⟩).2.2.2.1 rfl,
   (claim6_malformed_signature ⟨"", "", fun _ => false⟩ ⟨"Empty", [], [], [], []⟩).2.2.2.2 rfl⟩

/-- Claim C9: every Detection emitted by the pattern detector and by the
architecture-style detector carries a non-empty evidence list. -/
theorem claim9_nonempty_evidence :
    (∀ (env : MatchEnv) (sigs : List Signature) (d : PDetection),
      d ∈ analyze env sigs → d.evidence ≠ []) ∧
    (∀ (env : ArchEnv) (styles : List ArchStyle) (d : SDetection),
      d ∈ detect_architecture_style env styles → d.evidence ≠ []) := by
  constructor
  · intro env sigs d hd
    rw [analyze, mem_sortStable] at hd
    obtain ⟨sig, _, hdet⟩ := List.mem_filterMap.mp hd
    unfold detectSignature at hdet
    by_cases h1 : 0 < sigMax sig ∧ 0 < sigScore env sig
    · rw [if_pos h1] at hdet
      by_cases h2 : (1 : ℚ) / 5 ≤ min ((sigScore env sig : ℚ) / (sigMax sig : ℚ)) 1
      · rw [if_pos h2] at hdet
        simp only [Option.some.injEq] at hdet
        subst hdet
        have hsc := h1.2
        simp only [sigScore] at hsc
        have hlen : (sigEvidence env sig).length =
            (kwHits env sig.keywords).length + (impHits env sig.imports).length
              + (patHits env sig.patterns).length + (trHits env sig.traits).length := by
          simp [sigEvidence]
          omega
        have hpos : 0 < (sigEvidence env sig).length := by omega
        exact List.length_pos.mp hpos
      · rw [if_neg h2] at hdet
        exact absurd hdet (by simp)
    · rw [if_neg h1] at hdet
      exact absurd hdet (by simp)
  · intro env styles d hd
    rw [detect_architecture_style, mem_sortStable] at hd
    rcases List.mem_append.mp hd with hfix | hgen
    · unfold fixedStyleDetections at hfix
      split at hfix
      · rw [List.mem_singleton] at hfix
        subst hfix
        simp
      · split at hfix
        · split at hfix
          · rw [List.mem_singleton] at hfix
            subst hfix
            simp
          · exact absurd hfix (List.not_mem_nil d)
        · exact absurd hfix (List.not_mem_nil d)
    · obtain ⟨s, _, hds⟩ := List.mem_filterMap.mp hgen
      unfold detectStyle at hds
      split at hds
      · exact absurd hds (by simp)
      · split at hds
        · exact absurd hds (by simp)
        · rename_i hne
          split at hds
          · simp only [Option.some.injEq] at hds
            subst hds
            intro hnil
            simp only at hnil
            rw [hnil] at hne
            simp at hne
          · exact absurd hds (by simp)

/-- Witness for C9: the Builder detection and the fixed Multi-Crate
Workspace detection are emitted and carry non-empty evidence. -/
theorem claim9_witness :
    ((⟨"Builder", 2 / 3, ["keyword: Builder", "keyword: build()"]⟩ : PDetection) ∈
        analyze ⟨"Builder build()", "", fun _ => false⟩
          [⟨"Builder", ["Builder", "build()", "with_"], [], [], []⟩] ∧
      (["keyword: Builder", "keyword: build()"] : List String) ≠ []) ∧
    ((⟨"Multi-Crate Workspace", 9 / 10, ["Workspace with 5 packages"], mcwDescription⟩ : SDetection) ∈
        detect_architecture_style ⟨true, 5, "", ""⟩ [] ∧
      (["Workspace with 5 packages"] : List String) ≠ []) := by
  have hmemP := mem_analyze_of_detect ⟨"Builder build()", "", fun _ => false⟩
    (List.mem_singleton.mpr rfl) builder_detect_eval
  have hmemA := mem_detect_arch_of_fixed ⟨true, 5, "", ""⟩ [] mcw_fixed_eval
  exact ⟨⟨hmemP, claim9_nonempty_evidence.1 _ _ _ hmemP⟩,
    ⟨hmemA, claim9_nonempty_evidence.2 _ _ _ hmemA⟩⟩

/-- Counterexample to C3 as stated: a single-package corpus holding exactly
6 module declarations, all written pub mod (so 6 occurrences of "mod " and
6 of "pub mod ", every one of them a declaration), is 6 declarations, not
more than 10, yet the detector emits the Modular Monolith Detection at
confidence 0.7, because the code computes count("mod ") + count("pub mod ")
= 12, counting each pub mod declaration twice. -/
theorem claim3_counterexample :
    strCount "pub mod m0;\npub mod m1;\npub mod m2;\npub mod m3;\npub mod m4;\npub mod m5;\n" "mod " = 6 ∧
    strCount "pub mod m0;\npub mod m1;\npub mod m2;\npub mod m3;\npub mod m4;\npub mod m5;\n" "pub mod " = 6 ∧
    (⟨"Modular Monolith", 7 / 10, ["Single crate with 12+ module declarations"],
        mmDescription⟩ : SDetection) ∈
      detect_architecture_style
        ⟨false, 1, "pub mod m0;\npub mod m1;\npub mod m2;\npub mod m3;\npub mod m4;\npub mod m5;\n", ""⟩
        archCatalog := by
  refine ⟨by decide, by decide, ?_⟩
  apply mem_detect_arch_of_fixed
  have heval : fixedStyleDetections
      ⟨false, 1, "pub mod m0;\npub mod m1;\npub mod m2;\npub mod m3;\npub mod m4;\npub mod m5;\n", ""⟩ =
      [⟨"Modular Monolith", 7 / 10, ["Single crate with 12+ module declarations"], mmDescription⟩] := rfl
  rw [heval]
  exact List.mem_singleton.mpr rfl

/-- Claim C3 amended: for every single-package (non-workspace) project, the
style detector emits a Modular Monolith Detection with fixed confidence 0.7
exactly when count(corpus, "mod ") + count(corpus, "pub mod ") exceeds 10;
a declaration written pub mod is counted by both terms, so this is not the
number of module declarations whenever pub mod declarations are present. -/
theorem claim3_modular_monolith_amended :
    ∀ (env : ArchEnv) (styles : List ArchStyle),
      env.isWorkspace = false →
      ((∃ d ∈ detect_architecture_style env styles,
          d.style = "Modular Monolith" ∧ d.confidence = 7 / 10) ↔
        10 < moduleCount env.allCode) := by
  intro env styles hw
  constructor
  · rintro ⟨d, hd, hstyle, hconf⟩
    rw [detect_architecture_style, mem_sortStable] at hd
    rcases List.mem_append.mp hd with hfix | hgen
    · unfold fixedStyleDetections at hfix
      split at hfix
      · rename_i hcond
        rw [hw] at hcond
        simp at hcond
      · split at hfix
        · split at hfix
          · assumption
          · exact absurd hfix (List.not_mem_nil d)
        · exact absurd hfix (List.not_mem_nil d)
    · obtain ⟨s, _, hds⟩ := List.mem_filterMap.mp hgen
      unfold detectStyle at hds
      split at hds
      · exact absurd hds (by simp)
      · rename_i hskip
        split at hds
        · exact absurd hds (by simp)
        · split at hds
          · simp only [Option.some.injEq] at hds
            subst hds
            simp only at hstyle
            exact absurd (Or.inl hstyle) hskip
          · exact absurd hds (by simp)
  · intro hmc
    refine ⟨⟨"Modular Monolith", 7 / 10,
      ["Single crate with " ++ toString (moduleCount env.allCode) ++ "+ module declarations"],
      mmDescription⟩, ?_, rfl, rfl⟩
    apply mem_detect_arch_of_fixed
    have heval : fixedStyleDetections env =
        [⟨"Modular Monolith", 7 / 10,
          ["Single crate with " ++ toString (moduleCount env.allCode) ++ "+ module declarations"],
          mmDescription⟩] := by
      unfold fixedStyleDetections
      rw [hw]
      simp [hmc]
    rw [heval]
    exact List.mem_singleton.mpr rfl

/-- Witness for the amended C3: the 6-pub-mod corpus is a non-workspace
project with module count 12 as the code computes it, and the Modular
Monolith Detection is emitted for it. -/
theorem claim3_witness :
    ∃ d ∈ detect_architecture_style
        ⟨false, 1, "pub mod m0;\npub mod m1;\npub mod m2;\npub mod m3;\npub mod m4;\npub mod m5;\n", ""⟩
        archCatalog,
      d.style = "Modular Monolith" ∧ d.confidence = 7 / 10 :=
  (claim3_modular_monolith_amended
    ⟨false, 1, "pub mod m0;\npub mod m1;\npub mod m2;\npub mod m3;\npub mod m4;\npub mod m5;\n", ""⟩
    archCatalog rfl).mpr (by decide)

/-- Counterexample to C4 as stated: the knowledge-graph entity extractor
produces an Entity named as_ref, one of the ten identifiers the claim says
are never produced.  The fn pattern of _extract_entities matches the text
pub fn as_ref at offset 0 and captures as_ref, which is not in the
six-element exclusion list of that extractor, and the 20-character window
around offset 0 contains pub followed by a space, so the entity is even
recorded with visibility pub. -/
theorem claim4_counterexample :
    extract_entities (fun kind _ => if kind = "fn" then [⟨"as_ref", 0⟩] else [])
        "pub fn as_ref()" "src/lib.rs" =
      [⟨"as_ref", "as_ref", "fn", "src/lib.rs", "pub"⟩] ∧
    "as_ref" ∈ ["self", "Self", "crate", "super", "new", "default", "from", "into",
      "as_ref", "as_mut"] := by
  exact ⟨by decide, by decide⟩

/-- Claim C4 amended: the knowledge-graph entity extractor never produces
an Entity named self, Self, new, default, from or into, and the API-surface
extractor never produces an item named self, Self, crate or super; in
particular a declaration named self or Self is excluded by both regardless
of matched visibility.  Neither extractor excludes as_ref or as_mut, the
knowledge-graph extractor does not exclude crate or super, and the
API-surface extractor does not exclude new, default, from or into. -/
theorem claim4_excluded_names_amended :
    (∀ (find : String → String → List MatchRes) (content path : String) (e : Entity),
      e ∈ extract_entities find content path → e.name ∉ kgSkip) ∧
    (∀ (find : String → String → List PubMatch) (parseVis : String → String)
        (docOf : ApiItem → Option String) (content path : String) (it : ApiItem),
      it ∈ extract_pub_items find parseVis docOf content path → it.name ∉ apiSkip) := by
  constructor
  · intro find content path e he
    simp only [extract_entities, List.mem_flatten, List.mem_map] at he
    obtain ⟨l, ⟨kind, hkind, rfl⟩, hel⟩ := he
    obtain ⟨m, hm, hsome⟩ := List.mem_filterMap.mp hel
    by_cases hskip : m.name ∈ kgSkip
    · rw [if_pos hskip] at hsome
      exact absurd hsome (by simp)
    · rw [if_neg hskip] at hsome
      simp only [Option.some.injEq] at hsome
      subst hsome
      simpa using hskip
  · intro find parseVis docOf content path it hit
    simp only [extract_pub_items, List.mem_map] at hit
    obtain ⟨it0, hit0, rfl⟩ := hit
    simp only [List.mem_flatten, List.mem_map] at hit0
    obtain ⟨l, ⟨kind, hkind, rfl⟩, hel⟩ := hit0
    obtain ⟨m, hm, hsome⟩ := List.mem_filterMap.mp hel
    by_cases hskip : m.name ∈ apiSkip
    · rw [if_pos hskip] at hsome
      exact absurd hsome (by simp)
    · rw [if_neg hskip] at hsome
      simp only [Option.some.injEq] at hsome
      subst hsome
      simpa using hskip

/-- Witness for the amended C4: both extractors produce an entity or item
named Foo, whose name is outside the respective exclusion lists. -/
theorem claim4_witness :
    ((⟨"Foo", "Foo", "struct", "src/lib.rs", "pub"⟩ : Entity) ∈
        extract_entities (fun kind _ => if kind = "struct" then [⟨"Foo", 0⟩] else [])
          "pub struct Foo;" "src/lib.rs" ∧
      ("Foo" : String) ∉ kgSkip) ∧
    ((⟨"Foo", "struct", "pub", "pub", "src/lib.rs", 1, none⟩ : ApiItem) ∈
        extract_pub_items (fun kind _ => if kind = "struct" then [⟨"pub", "Foo", 0⟩] else [])
          (fun v => v) (fun _ => none) "pub struct Foo;" "src/lib.rs" ∧
      ("Foo" : String) ∉ apiSkip) := by
  have h1 : (⟨"Foo", "Foo", "struct", "src/lib.rs", "pub"⟩ : Entity) ∈
      extract_entities (fun kind _ => if kind = "struct" then [⟨"Foo", 0⟩] else [])
        "pub struct Foo;" "src/lib.rs" := by decide
  have h2 : (⟨"Foo", "struct", "pub", "pub", "src/lib.rs", 1, none⟩ : ApiItem) ∈
      extract_pub_items (fun kind _ => if kind = "struct" then [⟨"pub", "Foo", 0⟩] else [])
        (fun v => v) (fun _ => none) "pub struct Foo;" "src/lib.rs" := by decide
  exact ⟨⟨h1, claim4_excluded_names_amended.1 _ _ _ _ h1⟩,
    ⟨h2, claim4_excluded_names_amended.2 _ _ _ _ _ _ h2⟩⟩

/-- Counterexample to C5 as stated: on a graph with 51 public fn nodes the
emitted public_apis list has only 50 entries while stats.total_public_apis
is 51, so the core itself caps the emitted list (public_apis sliced to 50
inside build_semantic_index), contradicting the claim that the core
applies no display cap. -/
theorem claim5_counterexample :
    (build_semantic_index (fun _ => false)
        ⟨"p", (List.range 51).map (fun i =>
            ⟨"f" ++ toString i, "f" ++ toString i, "fn", "src/lib.rs", "pub"⟩),
          [], [], ⟨51, 0, 0⟩⟩).public_apis.length = 50 ∧
    (build_semantic_index (fun _ => false)
        ⟨"p", (List.range 51).map (fun i =>
            ⟨"f" ++ toString i, "f" ++ toString i, "fn", "src/lib.rs", "pub"⟩),
          [], [], ⟨51, 0, 0⟩⟩).stats.total_public_apis = 51 :=
  ⟨by decide, by decide⟩

/-- Claim C5 amended: build_semantic_index computes the public-API subset
as every node with visibility pub and kind fn, struct or trait, reports the
full count of that subset in stats.total_public_apis, but emits as
public_apis only the first 50 entries of the subset - the display cap is
applied in the core itself, not by a downstream consumer. -/
theorem claim5_public_apis_amended :
    ∀ (fileEx : String → Bool) (graph : KGraph),
      (∀ n : Entity, n ∈ pubSubset graph.nodes ↔
        n ∈ graph.nodes ∧ n.visibility = "pub" ∧
          (n.type = "fn" ∨ n.type = "struct" ∨ n.type = "trait")) ∧
      (build_semantic_index fileEx graph).public_apis =
        ((pubSubset graph.nodes).take 50).map (fun n => ⟨n.name, n.type, n.module⟩) ∧
      (build_semantic_index fileEx graph).stats.total_public_apis =
        (pubSubset graph.nodes).length := by
  intro fileEx graph
  refine ⟨?_, rfl, rfl⟩
  intro n
  rw [pubSubset, List.mem_filter]
  simp [and_assoc]
  tauto

/-- Claim C7: for a project with no matching source files the core returns
all-empty structures rather than raising: build_knowledge_graph returns
empty node, edge and cluster lists with all stats 0, and
build_semantic_index on that graph has all stats 0. -/
theorem claim7_empty_project :
    ∀ (find : String → String → List MatchRes)
      (relOf : String → String → List (String × Entity) → List Edge)
      (projName : String) (fileEx : String → Bool),
      (build_knowledge_graph find relOf projName []).nodes = [] ∧
      (build_knowledge_graph find relOf projName []).edges = [] ∧
      (build_knowledge_graph find relOf projName []).clusters = [] ∧
      (build_knowledge_graph find relOf projName []).stats = ⟨0, 0, 0⟩ ∧
      (build_semantic_index fileEx (build_knowledge_graph find relOf projName [])).stats
        = ⟨0, 0, 0⟩ := by
  intro find relOf projName fileEx
  exact ⟨rfl, rfl, rfl, rfl, rfl⟩

/-- Claim C10: build_knowledge_graph keeps at most one node per bare entity
name: the nodes list is exactly the first-occurrence filter of the
concatenated entity stream (file-iteration order, then pattern order), so
the first-seen occurrence is retained with all its fields (kind, module,
visibility), every later same-named entity is dropped entirely rather than
merged, and the nodes list never contains two entries with the same id. -/
theorem claim10_first_seen_dedup :
    ∀ (find : String → String → List MatchRes)
      (relOf : String → String → List (String × Entity) → List Edge)
      (projName : String) (files : List (String × String)),
      (build_knowledge_graph find relOf projName files).nodes =
        keepFirst [] (entityStream find files) ∧
      (((build_knowledge_graph find relOf projName files).nodes).map (fun e => e.name)).Nodup ∧
      (((build_knowledge_graph find relOf projName files).nodes).map (fun e => e.id)).Nodup := by
  intro find relOf projName files
  have hfold := kgFileFold find relOf files ⟨[], [], []⟩
  have hinit : seenIds (⟨[], [], []⟩ : KGState) = [] := rfl
  rw [hinit] at hfold
  have hnodes : (build_knowledge_graph find relOf projName files).nodes =
      keepFirst [] (entityStream find files) := by
    unfold build_knowledge_graph
    simpa using hfold.1
  refine ⟨hnodes, ?_, ?_⟩
  · rw [hnodes]
    exact (keepFirst_names (entityStream find files) []).1
  · rw [hnodes]
    have hmap : (keepFirst [] (entityStream find files)).map (fun e => e.id) =
        (keepFirst [] (entityStream find files)).map (fun e => e.name) := by
      apply List.map_congr_left
      intro e he
      exact entityStream_id_eq_name find files e
        (keepFirst_subset (entityStream find files) [] e he)
    rw [hmap]
    exact (keepFirst_names (entityStream find files) []).1

/-- Counterexample to C8 as stated: for an entity whose module path is
"a/b" (no segment matching a layer group, final segment not ending in
".rs"), the code labels its cluster with the final segment, Module: b,
while the claimed rule "Module: <parent directory>" names the parent
segment, Module: a.  The fallback uses the second-to-last segment only
when the last segment ends in ".rs". -/
theorem claim8_counterexample :
    identifyClusters [⟨"X", "X", "struct", "a/b", "private"⟩] =
      [⟨"Module: b", ["X"]⟩] ∧
    ∀ c ∈ identifyClusters [⟨"X", "X", "struct", "a/b", "private"⟩],
      c.name ≠ "Module: a" :=
  ⟨by decide, by decide⟩

/-- Claim C8 amended: cluster assignment is a total partition at the
entity level: cluster names are pairwise distinct, and every entity is
assigned to exactly one cluster, the one named layerOf of its module path.
layerOf checks the fixed priority order (domain/entity/model, then
service/application/handler, then repo/db/storage, then api/http/web,
then util/common/helper), and otherwise labels "Module: " followed by the
second-to-last path segment when the final segment ends in ".rs" and by
the final segment when it does not, or "Core" when the path has no parent
segment. -/
theorem claim8_cluster_partition_amended :
    ∀ nodes : List Entity,
      ((identifyClusters nodes).map (fun c => c.name)).Nodup ∧
      ∀ n ∈ nodes, ∃! c : Cluster,
        c ∈ identifyClusters nodes ∧ c.name = layerOf n.module ∧ n.id ∈ c.nodes := by
  intro nodes
  have hkeysnodup : ((nodes.foldl (fun acc n => addToLayer (layerOf n.module) n.id acc)
      []).map (fun p => p.1)).Nodup :=
    clusterFold_keys_nodup nodes [] (by simp)
  have hperm := perm_sortStable (fun y x => decide (y.1 < x.1))
    (nodes.foldl (fun acc n => addToLayer (layerOf n.module) n.id acc) [])
  have hsortkeys : ((sortStable (fun y x => decide (y.1 < x.1))
      (nodes.foldl (fun acc n => addToLayer (layerOf n.module) n.id acc) [])).map
      (fun p => p.1)).Nodup :=
    ((hperm.map (fun p => p.1)).nodup_iff).mpr hkeysnodup
  have hnames : (identifyClusters nodes).map (fun c => c.name) =
      (sortStable (fun y x => decide (y.1 < x.1))
        (nodes.foldl (fun acc n => addToLayer (layerOf n.module) n.id acc) [])).map
        (fun p => p.1) := by
    simp only [identifyClusters, List.map_map]
    rfl
  have hNodup : ((identifyClusters nodes).map (fun c => c.name)).Nodup := by
    rw [hnames]
    exact hsortkeys
  refine ⟨hNodup, ?_⟩
  intro n hn
  obtain ⟨ids, hmem, hid⟩ := clusterFold_mem nodes [] n hn
  have hmem' : (layerOf n.module, ids) ∈ sortStable (fun y x => decide (y.1 < x.1))
      (nodes.foldl (fun acc n => addToLayer (layerOf n.module) n.id acc) []) := by
    rw [mem_sortStable]
    exact hmem
  have hmine : (⟨layerOf n.module, sortedDedup ids⟩ : Cluster) ∈ identifyClusters nodes := by
    simp only [identifyClusters]
    exact List.mem_map.mpr ⟨(layerOf n.module, ids), hmem', rfl⟩
  refine ⟨⟨layerOf n.module, sortedDedup ids⟩, ⟨hmine, rfl, ?_⟩, ?_⟩
  · rw [mem_sortedDedup]
    exact hid
  · rintro c ⟨hc, hcname, _⟩
    exact List.inj_on_of_nodup_map hNodup hc hmine (by rw [hcname])

/-- Witness for the amended C8: a single entity in src/domain/user.rs is
assigned to exactly one cluster, the Domain Layer, and the cluster names
are distinct. -/
theorem claim8_witness :
    ((identifyClusters [⟨"A", "A", "struct", "src/domain/user.rs", "pub"⟩]).map
      (fun c => c.name)).Nodup ∧
    ∃! c : Cluster,
      c ∈ identifyClusters [⟨"A", "A", "struct", "src/domain/user.rs", "pub"⟩] ∧
      c.name = layerOf "src/domain/user.rs" ∧ "A" ∈ c.nodes :=
  ⟨(claim8_cluster_partition_amended [⟨"A", "A", "struct", "src/domain/user.rs", "pub"⟩]).1,
   (claim8_cluster_partition_amended [⟨"A", "A", "struct", "src/domain/user.rs", "pub"⟩]).2
     ⟨"A", "A", "struct", "src/domain/user.rs", "pub"⟩ (List.mem_singleton.mpr rfl)⟩

end RustAsr
